import Mathlib

/-!
# Verification of the point-service core (hhplus-tdd-nest)

Shallow embedding of the point management service:

* `PointConstants`, `PointValidator.*`  — from `src/point/point.constants.ts`
  and `src/point/point.validator.ts`.
* `UserPointTable.selectById` / `insertOrUpdate`, `PointHistoryTable.insert` —
  the in-memory database tables; their source is not in the snapshot, so they
  are modelled from the specification's boundary contract (§6): `get` returns a
  zero-balance account for an unseen key, `set` persists and returns the
  account with a fresh store timestamp, `append` records a ledger entry.
* `LockManager` — from `src/point/lock-manager.ts`: a `Map` of per-key promise
  chains.  Two views are embedded: (a) `stepLock` gives the registry's
  transition on each admission (`Map.set`) and completion
  (`cleanupLockIfNeeded`), so that arbitrary interleavings of admissions and
  completions across keys can be analysed; (b) `LockManager.acquire` gives the
  protocol around one operation (admit, run body, then — in `finally` —
  release and clean up), in the serialized per-key order that the promise
  chain enforces.
* `PointService.chargePoint` / `usePoint` — from `src/point/point.service.ts`
  (`executePointTransaction`, `updatePointWithHistory`).

Numbers are embedded as `Int` (all JavaScript arithmetic in the service is
integer arithmetic on integral inputs).  JavaScript's truncating `%` and
Lean's `Int.emod` agree on the only use made of `%` here, the test
`amount % USE_UNIT !== 0`, since both remainders vanish exactly when
`USE_UNIT ∣ amount`.

Each operation additionally records a ghost trace of `Event`s in the order
the corresponding lines of `executePointTransaction` run (lock admission,
balance-store read/write, ledger append, rejection, lock release), so that
ordering claims such as "rejected before/after acquiring the lock" and
"no store read before rejection" are statable.
-/

/-- `PointConstants.MAX_POINT` (`point.constants.ts`): maximum holdable points. -/
def MAX_POINT : Int := 10000000

/-- `PointConstants.MAX_CHARGE_PER_TRANSACTION` (`point.constants.ts`). -/
def MAX_CHARGE_PER_TRANSACTION : Int := 1000000

/-- `PointConstants.USE_UNIT` (`point.constants.ts`): granularity of a debit. -/
def USE_UNIT : Int := 100

/-- `TransactionType` enum from `point.model.ts` (referenced throughout). -/
inductive TransactionType where
  | CHARGE
  | USE
deriving DecidableEq

/-- The four `BadRequestException`s thrown by `PointValidator`
(`point.validator.ts`), distinguished by their error message. -/
inductive PointError where
  | maxPointExceeded
  | maxChargeExceeded
  | invalidUseUnit
  | insufficientBalance
deriving DecidableEq

/-- `UserPoint` record from `point.model.ts`. -/
structure UserPoint where
  id : Nat
  point : Int
  updateMillis : Nat
deriving DecidableEq

/-- `PointHistory` record from `point.model.ts`. -/
structure PointHistory where
  id : Nat
  userId : Nat
  amount : Int
  type : TransactionType
  timeMillis : Nat
deriving DecidableEq

namespace PointValidator

/-- `PointValidator.validateMaxPoint`: throws when `point > MAX_POINT`. -/
def validateMaxPoint (point : Int) : Except PointError Unit :=
  if point > MAX_POINT then .error .maxPointExceeded else .ok ()

/-- `PointValidator.validateChargeAmount`: throws when
`amount > MAX_CHARGE_PER_TRANSACTION`.  (Positivity is *not* checked here;
the HTTP DTO layer checks it, outside the service.) -/
def validateChargeAmount (amount : Int) : Except PointError Unit :=
  if amount > MAX_CHARGE_PER_TRANSACTION then .error .maxChargeExceeded else .ok ()

/-- `PointValidator.validateUseAmount`: throws when
`amount % USE_UNIT !== 0`. -/
def validateUseAmount (amount : Int) : Except PointError Unit :=
  if amount % USE_UNIT ≠ 0 then .error .invalidUseUnit else .ok ()

/-- `PointValidator.validateSufficientBalance`: throws when
`currentPoint < amountToUse`. -/
def validateSufficientBalance (currentPoint amountToUse : Int) : Except PointError Unit :=
  if currentPoint < amountToUse then .error .insufficientBalance else .ok ()

end PointValidator

/-! ## A JavaScript-`Map`-style association list

`LockManager.locks` and `UserPointTable.table` are JavaScript `Map`s; we embed
the three operations used (`get`, `set`, `delete`).  `set` overwrites the
existing entry in place, else appends. -/

/-- `Map.get`. -/
def mapGet {β : Type} (m : List (Nat × β)) (k : Nat) : Option β :=
  match m with
  | [] => none
  | (k', v) :: rest => if k' = k then some v else mapGet rest k

/-- `Map.set`: replace the entry for `k` in place, or append a new one. -/
def mapSet {β : Type} (m : List (Nat × β)) (k : Nat) (v : β) : List (Nat × β) :=
  match m with
  | [] => [(k, v)]
  | (k', v') :: rest => if k' = k then (k, v) :: rest else (k', v') :: mapSet rest k v

/-- `Map.delete`. -/
def mapDelete {β : Type} (m : List (Nat × β)) (k : Nat) : List (Nat × β) :=
  match m with
  | [] => []
  | (k', v') :: rest => if k' = k then rest else (k', v') :: mapDelete rest k

/-! ## The store state -/

/-- Combined state of the two in-memory tables plus a logical clock supplying
the store's fresh timestamps.

Modelled from the spec: the table sources (`src/database/*.table.ts`) are not
in the snapshot; §6 specifies the balance store (`get` returns a zero-balance
`Account` if the key is unseen, `set` returns the persisted `Account` with a
fresh timestamp) and the append-only history store. -/
structure PointState where
  points : List (Nat × UserPoint)
  histories : List PointHistory
  now : Nat
deriving DecidableEq

/-- The store before any operation: no accounts, no history. -/
def emptyPointState : PointState :=
  { points := [], histories := [], now := 0 }

/-- Modelled from the spec: `UserPointTable.selectById` — returns the stored
`UserPoint`, or a zero-balance account for an unseen key (implicit creation
at 0).  A read does not mutate the store. -/
def selectById (st : PointState) (userId : Nat) : UserPoint :=
  match mapGet st.points userId with
  | some up => up
  | none => { id := userId, point := 0, updateMillis := 0 }

/-- Modelled from the spec: `UserPointTable.insertOrUpdate` — persists the new
balance and returns the persisted `UserPoint` carrying the store's fresh
timestamp (strictly later than the clock at submission). -/
def insertOrUpdate (st : PointState) (userId : Nat) (point : Int) :
    UserPoint × PointState :=
  let t := st.now + 1
  let up : UserPoint := { id := userId, point := point, updateMillis := t }
  (up, { st with points := mapSet st.points userId up, now := t })

/-- Modelled from the spec: `PointHistoryTable.insert` — appends a ledger
entry (append-only; entries are never mutated or deleted). -/
def historyInsert (st : PointState) (userId : Nat) (amount : Int)
    (type : TransactionType) (timeMillis : Nat) : PointHistory × PointState :=
  let h : PointHistory :=
    { id := st.histories.length + 1, userId := userId, amount := amount,
      type := type, timeMillis := timeMillis }
  (h, { st with histories := st.histories ++ [h], now := st.now + 1 })

/-! ## Ghost events

One `Event` per effectful line of `executePointTransaction` /
`LockManager.acquire`, in execution order. -/

/-- Ghost trace events, in the order the corresponding source lines run. -/
inductive Event where
  /-- `LockManager.acquire` registered this operation on `userId`'s chain. -/
  | acquire (userId : Nat)
  /-- `LockManager.acquire`'s `finally` released `userId`'s lock. -/
  | release (userId : Nat)
  /-- `pointRepository.getUserPoint(userId)` was called. -/
  | balanceRead (userId : Nat)
  /-- `pointRepository.updateUserPoint(userId, point)` was called. -/
  | balanceWrite (userId : Nat) (point : Int)
  /-- `pointRepository.addPointHistory(userId, amount, …)` was called. -/
  | ledgerAppend (userId : Nat) (amount : Int)
  /-- A `PointValidator` check threw `e`. -/
  | reject (userId : Nat) (e : PointError)
deriving DecidableEq

/-! ## LockManager (`lock-manager.ts`)

The registry is `locks : Map<number, Promise<void>>`; we name each created
promise by a fresh numeric id.  The registry changes at exactly two source
lines, captured by `stepLock`:

* admission — `this.locks.set(userId, currentLock)` (line 94), run
  synchronously when `acquire` is called;
* completion — `cleanupLockIfNeeded(userId, currentLock)` (lines 130–137),
  run in the `finally` block: delete the entry only if it still refers to
  this operation's own promise. -/

/-- One registry-mutating step of `LockManager`. -/
inductive LockEvent where
  /-- `acquire` admitted operation `id` for `userId`: `locks.set(userId, id)`. -/
  | enter (userId : Nat) (id : Nat)
  /-- Operation `id` for `userId` finished; `cleanupLockIfNeeded` ran. -/
  | leave (userId : Nat) (id : Nat)
deriving DecidableEq

/-- The registry transition of `LockManager` on one admission or completion,
read off `acquire` (line 94) and `cleanupLockIfNeeded` (lines 130–137). -/
def stepLock (m : List (Nat × Nat)) : LockEvent → List (Nat × Nat)
  | .enter userId id => mapSet m userId id
  | .leave userId id => if mapGet m userId = some id then mapDelete m userId else m

/-- Run the registry through a whole interleaving of admissions and
completions, starting from `LockManager`'s initial empty `Map`. -/
def runLockEvents (events : List LockEvent) : List (Nat × Nat) :=
  events.foldl stepLock []

/-- `LockManager.hasActiveLock` on a registry value. -/
def hasActiveLockReg (m : List (Nat × Nat)) (userId : Nat) : Bool :=
  (mapGet m userId).isSome

/-- Is some event of `es` an admission for `userId`? -/
def isEnterFor (userId : Nat) : LockEvent → Bool
  | .enter k _ => k = userId
  | .leave _ _ => false

/-- After position `i`, does `es` admit another operation for `userId`? -/
def entersAfter (es : List LockEvent) (i : Nat) (userId : Nat) : Bool :=
  (es.drop (i + 1)).any (isEnterFor userId)

/-- After position `i`, does `es` complete operation `id` for `userId`? -/
def leavesAfter (es : List LockEvent) (i : Nat) (userId : Nat) (id : Nat) : Bool :=
  (es.drop (i + 1)).any (· = .leave userId id)

/-- Every admission in `es` either is superseded by a later admission for the
same key or is completed later: the hypothesis "every `acquire` call has
completed" of the registry-cleanup property. -/
def allEntersServed (es : List LockEvent) : Bool :=
  (List.range es.length).all fun i =>
    match es.get? i with
    | some (.enter userId id) => entersAfter es i userId || leavesAfter es i userId id
    | _ => true

/-- State of the `LockManager` instance: the `locks` registry plus a supply
of fresh promise ids. -/
structure LockManagerState where
  locks : List (Nat × Nat)
  nextId : Nat
deriving DecidableEq

/-- A fresh `LockManager` (empty registry). -/
def emptyLockManager : LockManagerState :=
  { locks := [], nextId := 0 }

/-- Equality of service-call results is decidable (used to evaluate concrete
runs). -/
instance : DecidableEq (Except PointError UserPoint) := fun a b =>
  match a, b with
  | .error e1, .error e2 =>
    if h : e1 = e2 then isTrue (by rw [h])
    else isFalse (by intro hh; cases hh; exact h rfl)
  | .ok v1, .ok v2 =>
    if h : v1 = v2 then isTrue (by rw [h])
    else isFalse (by intro hh; cases hh; exact h rfl)
  | .error _, .ok _ => isFalse (by intro h; cases h)
  | .ok _, .error _ => isFalse (by intro h; cases h)

/-- Everything one service call produces: the value returned or error thrown,
the store state after it, the `LockManager` state after it, and the ghost
trace of its effects in execution order. -/
structure TxOutcome where
  result : Except PointError UserPoint
  state : PointState
  lockState : LockManagerState
  trace : List Event
deriving DecidableEq

/-- `LockManager.acquire(userId, operation)` around one operation body, in the
serialized per-key order enforced by the promise chain (`await previousLock`
completes exactly when the predecessor's `finally` has run, so same-key
bodies run back-to-back in admission order):

1. create `currentLock` and register it (`locks.set`, the `enter` step);
2. run `operation` — its result, ordinary or thrown, is captured;
3. `finally`: release the lock and run `cleanupLockIfNeeded` (the `leave`
   step), then return `operation`'s result unchanged. -/
def LockManager.acquire (lm : LockManagerState) (userId : Nat)
    (operation : PointState → Except PointError UserPoint × PointState × List Event)
    (st : PointState) : TxOutcome :=
  let currentLock := lm.nextId
  let locks1 := stepLock lm.locks (.enter userId currentLock)
  let (r, st', evs) := operation st
  let locks2 := stepLock locks1 (.leave userId currentLock)
  { result := r, state := st',
    lockState := { locks := locks2, nextId := lm.nextId + 1 },
    trace := .acquire userId :: evs ++ [.release userId] }

/-! ## PointService (`point.service.ts`) -/

/-- `PointService.updatePointWithHistory` (lines 125–146): write the new
balance, then append a ledger entry stamped with the *store-returned*
`updatedPoint.updateMillis`, and return the store-persisted `UserPoint`. -/
def updatePointWithHistory (st : PointState) (userId : Nat) (newPoint : Int)
    (amount : Int) (type : TransactionType) :
    UserPoint × PointState × List Event :=
  let (updatedPoint, st1) := insertOrUpdate st userId newPoint
  let (_, st2) := historyInsert st1 userId amount type updatedPoint.updateMillis
  (updatedPoint, st2, [.balanceWrite userId newPoint, .ledgerAppend userId amount])

/-- The callback `executePointTransaction` passes to `lockManager.acquire`
(lines 97–114): validate the amount, read the current point, compute the new
point (with its own validation), then update point and history.  Any
validation failure aborts with the store untouched. -/
def transactionBody (st : PointState) (userId : Nat) (amount : Int)
    (type : TransactionType)
    (validateAmount : Except PointError Unit)
    (calculateNewPoint : Int → Except PointError Int) :
    Except PointError UserPoint × PointState × List Event :=
  match validateAmount with
  | .error e => (.error e, st, [.reject userId e])
  | .ok () =>
    let userPoint := selectById st userId
    match calculateNewPoint userPoint.point with
    | .error e => (.error e, st, [.balanceRead userId, .reject userId e])
    | .ok newPoint =>
      let (up, st', evs) := updatePointWithHistory st userId newPoint amount type
      (.ok up, st', .balanceRead userId :: evs)

/-- `PointService.executePointTransaction` (lines 90–115): run the
transaction body under `lockManager.acquire(userId, …)`. -/
def executePointTransaction (lm : LockManagerState) (st : PointState)
    (userId : Nat) (amount : Int) (type : TransactionType)
    (validateAmount : Except PointError Unit)
    (calculateNewPoint : Int → Except PointError Int) : TxOutcome :=
  LockManager.acquire lm userId
    (fun s => transactionBody s userId amount type validateAmount calculateNewPoint) st

/-- `PointService.chargePoint` (lines 35–49): validate the charge amount,
then add it to the current point, capped by `validateMaxPoint`. -/
def chargePoint (lm : LockManagerState) (st : PointState) (userId : Nat)
    (amount : Int) : TxOutcome :=
  executePointTransaction lm st userId amount .CHARGE
    (PointValidator.validateChargeAmount amount)
    (fun currentPoint =>
      match PointValidator.validateMaxPoint (currentPoint + amount) with
      | .error e => .error e
      | .ok () => .ok (currentPoint + amount))

/-- `PointService.usePoint` (lines 56–69): validate the use unit, then check
sufficient balance and subtract. -/
def usePoint (lm : LockManagerState) (st : PointState) (userId : Nat)
    (amount : Int) : TxOutcome :=
  executePointTransaction lm st userId amount .USE
    (PointValidator.validateUseAmount amount)
    (fun currentPoint =>
      match PointValidator.validateSufficientBalance currentPoint amount with
      | .error e => .error e
      | .ok () => .ok (currentPoint - amount))

/-! ## Sequences of operations

`LockManager.acquire` chains every same-key operation on its predecessor's
completion promise, so logically-concurrent operations on one key execute
their read-modify-write bodies back-to-back in admission order; `runOps` is
that serialized execution of a whole admission sequence. -/

/-- One admitted service call: a charge or a use for some key. -/
inductive Op where
  | charge (userId : Nat) (amount : Int)
  | use (userId : Nat) (amount : Int)
deriving DecidableEq

/-- The amount carried by an operation. -/
def Op.amount : Op → Int
  | .charge _ a => a
  | .use _ a => a

/-- Apply one admitted operation to the combined store/lock-manager state. -/
def applyOp (p : PointState × LockManagerState) (op : Op) :
    PointState × LockManagerState :=
  match op with
  | .charge userId a =>
    let o := chargePoint p.2 p.1 userId a
    (o.state, o.lockState)
  | .use userId a =>
    let o := usePoint p.2 p.1 userId a
    (o.state, o.lockState)

/-- Serialized execution of a sequence of admitted operations. -/
def runOps (p : PointState × LockManagerState) (ops : List Op) :
    PointState × LockManagerState :=
  ops.foldl applyOp p

/-- The ledger entries of kind `type` for `userId`. -/
def entriesFor (hs : List PointHistory) (userId : Nat) (type : TransactionType) :
    List PointHistory :=
  hs.filter (fun h => h.userId = userId ∧ h.type = type)

/-- Sum of the amounts of the ledger entries of kind `type` for `userId`. -/
def ledgerSum (hs : List PointHistory) (userId : Nat) (type : TransactionType) : Int :=
  ((entriesFor hs userId type).map PointHistory.amount).sum

/-- All ledger entries for `userId`, of either kind. -/
def entriesOf (hs : List PointHistory) (userId : Nat) : List PointHistory :=
  hs.filter (fun h => h.userId = userId)

/-! ## Characterizations of one service call

Each `chargePoint`/`usePoint` call lands in exactly one of three branches
(pre-read rejection, post-read rejection, commit); the lemmas below compute
the full `TxOutcome` of each branch. -/

/-- The effect of one complete `acquire`–`finally` cycle on the
`LockManager`: admit a fresh lock, then clean it up. -/
def lockCycle (lm : LockManagerState) (userId : Nat) : LockManagerState :=
  { locks := stepLock (stepLock lm.locks (.enter userId lm.nextId)) (.leave userId lm.nextId),
    nextId := lm.nextId + 1 }

/-- The balance the service reads for `userId` in store state `st`. -/
def bal (st : PointState) (userId : Nat) : Int :=
  (selectById st userId).point

/-- The ledger entry a committed operation appends: fresh table id, stamped
with the store timestamp of the balance write (`st.now + 1`). -/
def txEntry (st : PointState) (userId : Nat) (amount : Int)
    (type : TransactionType) : PointHistory :=
  { id := st.histories.length + 1, userId := userId, amount := amount,
    type := type, timeMillis := st.now + 1 }

/-- The `UserPoint` the balance store returns for a committed write. -/
def txUserPoint (st : PointState) (userId : Nat) (newPoint : Int) : UserPoint :=
  { id := userId, point := newPoint, updateMillis := st.now + 1 }

/-- The store state after a committed operation: balance written, one ledger
entry appended, clock advanced by the two store writes. -/
def txState (st : PointState) (userId : Nat) (newPoint amount : Int)
    (type : TransactionType) : PointState :=
  { points := mapSet st.points userId (txUserPoint st userId newPoint),
    histories := st.histories ++ [txEntry st userId amount type],
    now := st.now + 2 }

/-- A store state holding 9,500,000 points for key 1: large enough that a
cap-sized charge overshoots `MAX_POINT`, small enough to be reachable by ten
charges. -/
def stNearMax : PointState :=
  { points := [(1, { id := 1, point := 9500000, updateMillis := 3 })],
    histories := [], now := 3 }

/-- Run a FIFO queue of operation bodies for one key through
`LockManager.acquire`, one after the other (the promise chain admits each
body only after its predecessor's `finally` has run), collecting every
body's result. -/
def runAcquireQueue (lm : LockManagerState) (st : PointState) (userId : Nat)
    (ops : List (PointState → Except PointError UserPoint × PointState × List Event)) :
    List (Except PointError UserPoint) × PointState × LockManagerState :=
  match ops with
  | [] => ([], st, lm)
  | op :: rest =>
    let o := LockManager.acquire lm userId op st
    let (rs, st'', lm'') := runAcquireQueue o.lockState o.state userId rest
    (o.result :: rs, st'', lm'')

/-- The callback `chargePoint` hands to the lock manager (the validated
read-add-write body). -/
def chargeBody (userId : Nat) (amount : Int) :
    PointState → Except PointError UserPoint × PointState × List Event :=
  fun st => transactionBody st userId amount .CHARGE
    (PointValidator.validateChargeAmount amount)
    (fun currentPoint =>
      match PointValidator.validateMaxPoint (currentPoint + amount) with
      | .error e => .error e
      | .ok () => .ok (currentPoint + amount))

/-- The callback `usePoint` hands to the lock manager (the validated
read-subtract-write body). -/
def useBody (userId : Nat) (amount : Int) :
    PointState → Except PointError UserPoint × PointState × List Event :=
  fun st => transactionBody st userId amount .USE
    (PointValidator.validateUseAmount amount)
    (fun currentPoint =>
      match PointValidator.validateSufficientBalance currentPoint amount with
      | .error e => .error e
      | .ok () => .ok (currentPoint - amount))

theorem chargePoint_reject_cap (lm : LockManagerState) (st : PointState)
    (k : Nat) (a : Int) (h : a > MAX_CHARGE_PER_TRANSACTION) :
    chargePoint lm st k a =
      { result := .error .maxChargeExceeded, state := st,
        lockState := lockCycle lm k,
        trace := [.acquire k, .reject k .maxChargeExceeded, .release k] } := by
  simp only [chargePoint, executePointTransaction, LockManager.acquire, transactionBody,
    PointValidator.validateChargeAmount, lockCycle, if_pos h]
  rfl

theorem chargePoint_reject_max (lm : LockManagerState) (st : PointState)
    (k : Nat) (a : Int) (hcap : a ≤ MAX_CHARGE_PER_TRANSACTION)
    (hmax : bal st k + a > MAX_POINT) :
    chargePoint lm st k a =
      { result := .error .maxPointExceeded, state := st,
        lockState := lockCycle lm k,
        trace := [.acquire k, .balanceRead k, .reject k .maxPointExceeded,
          .release k] } := by
  simp only [bal] at hmax
  simp only [chargePoint, executePointTransaction, LockManager.acquire, transactionBody,
    PointValidator.validateChargeAmount, PointValidator.validateMaxPoint,
    lockCycle, bal, if_neg (not_lt.mpr hcap), if_pos hmax]
  rfl

theorem chargePoint_commit (lm : LockManagerState) (st : PointState)
    (k : Nat) (a : Int) (hcap : a ≤ MAX_CHARGE_PER_TRANSACTION)
    (hmax : bal st k + a ≤ MAX_POINT) :
    chargePoint lm st k a =
      { result := .ok (txUserPoint st k (bal st k + a)),
        state := txState st k (bal st k + a) a .CHARGE,
        lockState := lockCycle lm k,
        trace := [.acquire k, .balanceRead k, .balanceWrite k (bal st k + a),
          .ledgerAppend k a, .release k] } := by
  simp only [bal] at hmax
  simp only [chargePoint, executePointTransaction, LockManager.acquire, transactionBody,
    PointValidator.validateChargeAmount, PointValidator.validateMaxPoint,
    updatePointWithHistory, insertOrUpdate, historyInsert,
    lockCycle, bal, txState, txEntry, txUserPoint,
    if_neg (not_lt.mpr hcap), if_neg (not_lt.mpr hmax)]
  rfl

theorem usePoint_reject_unit (lm : LockManagerState) (st : PointState)
    (k : Nat) (a : Int) (h : a % USE_UNIT ≠ 0) :
    usePoint lm st k a =
      { result := .error .invalidUseUnit, state := st,
        lockState := lockCycle lm k,
        trace := [.acquire k, .reject k .invalidUseUnit, .release k] } := by
  simp only [usePoint, executePointTransaction, LockManager.acquire, transactionBody,
    PointValidator.validateUseAmount, lockCycle, if_pos h]
  rfl

theorem usePoint_reject_insufficient (lm : LockManagerState) (st : PointState)
    (k : Nat) (a : Int) (hunit : a % USE_UNIT = 0) (hlt : bal st k < a) :
    usePoint lm st k a =
      { result := .error .insufficientBalance, state := st,
        lockState := lockCycle lm k,
        trace := [.acquire k, .balanceRead k, .reject k .insufficientBalance,
          .release k] } := by
  simp only [bal] at hlt
  simp only [usePoint, executePointTransaction, LockManager.acquire, transactionBody,
    PointValidator.validateUseAmount, PointValidator.validateSufficientBalance,
    lockCycle, bal, if_neg (not_not_intro hunit), if_pos hlt]
  rfl

theorem usePoint_commit (lm : LockManagerState) (st : PointState)
    (k : Nat) (a : Int) (hunit : a % USE_UNIT = 0) (hge : a ≤ bal st k) :
    usePoint lm st k a =
      { result := .ok (txUserPoint st k (bal st k - a)),
        state := txState st k (bal st k - a) a .USE,
        lockState := lockCycle lm k,
        trace := [.acquire k, .balanceRead k, .balanceWrite k (bal st k - a),
          .ledgerAppend k a, .release k] } := by
  simp only [bal] at hge
  simp only [usePoint, executePointTransaction, LockManager.acquire, transactionBody,
    PointValidator.validateUseAmount, PointValidator.validateSufficientBalance,
    updatePointWithHistory, insertOrUpdate, historyInsert,
    lockCycle, bal, txState, txEntry, txUserPoint,
    if_neg (not_not_intro hunit), if_neg (not_lt.mpr hge)]
  rfl

/-! ## Lemmas about the `Map` embedding -/

theorem mapGet_mapSet_self {β : Type} (m : List (Nat × β)) (k : Nat) (v : β) :
    mapGet (mapSet m k v) k = some v := by
  induction m with
  | nil => simp [mapSet, mapGet]
  | cons hd tl ih =>
    obtain ⟨k', v'⟩ := hd
    by_cases h : k' = k
    · subst h; simp [mapSet, mapGet]
    · simp [mapSet, mapGet, h, ih]

theorem mapGet_mapSet_ne {β : Type} (m : List (Nat × β)) (k k' : Nat) (v : β)
    (h : k' ≠ k) : mapGet (mapSet m k v) k' = mapGet m k' := by
  have hne : ¬ k = k' := fun hh => h hh.symm
  induction m with
  | nil => simp [mapSet, mapGet, hne]
  | cons hd tl ih =>
    obtain ⟨k'', v''⟩ := hd
    by_cases hk : k'' = k
    · subst hk
      simp [mapSet, mapGet, hne]
    · simp [mapSet, mapGet, hk, ih]

theorem mapGet_mapDelete_ne {β : Type} (m : List (Nat × β)) (k k' : Nat)
    (h : k' ≠ k) : mapGet (mapDelete m k) k' = mapGet m k' := by
  have hne : ¬ k = k' := fun hh => h hh.symm
  induction m with
  | nil => simp [mapDelete]
  | cons hd tl ih =>
    obtain ⟨k'', v''⟩ := hd
    by_cases hk : k'' = k
    · subst hk
      simp [mapDelete, mapGet, hne]
    · simp [mapDelete, mapGet, hk, ih]

theorem mapGet_eq_none_of_not_mem {β : Type} (m : List (Nat × β)) (k : Nat)
    (h : k ∉ m.map Prod.fst) : mapGet m k = none := by
  induction m with
  | nil => rfl
  | cons hd tl ih =>
    obtain ⟨k', v'⟩ := hd
    simp only [List.map_cons, List.mem_cons, not_or] at h
    have h1 : ¬ k' = k := fun hh => h.1 hh.symm
    simp [mapGet, h1, ih h.2]

theorem mem_keys_mapSet {β : Type} (m : List (Nat × β)) (k : Nat) (v : β)
    (x : Nat) (h : x ∈ (mapSet m k v).map Prod.fst) :
    x ∈ m.map Prod.fst ∨ x = k := by
  induction m with
  | nil =>
    simp only [mapSet, List.map_cons, List.map_nil, List.mem_singleton] at h
    exact .inr h
  | cons hd tl ih =>
    obtain ⟨k', v'⟩ := hd
    by_cases hk : k' = k
    · subst hk
      have hset : mapSet ((k', v') :: tl) k' v = (k', v) :: tl := by simp [mapSet]
      rw [hset] at h
      simp only [List.map_cons, List.mem_cons] at h
      simp only [List.map_cons, List.mem_cons]
      tauto
    · simp only [mapSet, if_neg hk, List.map_cons, List.mem_cons] at h
      simp only [List.map_cons, List.mem_cons]
      rcases h with h | h
      · exact .inl (.inl h)
      · rcases ih h with h' | h'
        · exact .inl (.inr h')
        · exact .inr h'

theorem nodupKeys_mapSet {β : Type} (m : List (Nat × β)) (k : Nat) (v : β)
    (h : (m.map Prod.fst).Nodup) : ((mapSet m k v).map Prod.fst).Nodup := by
  induction m with
  | nil => simp [mapSet]
  | cons hd tl ih =>
    obtain ⟨k', v'⟩ := hd
    simp only [List.map_cons, List.nodup_cons] at h
    by_cases hk : k' = k
    · subst hk
      have hset : mapSet ((k', v') :: tl) k' v = (k', v) :: tl := by simp [mapSet]
      rw [hset]
      simp only [List.map_cons, List.nodup_cons]
      exact h
    · simp only [mapSet, if_neg hk, List.map_cons, List.nodup_cons]
      refine ⟨fun hmem => ?_, ih h.2⟩
      rcases mem_keys_mapSet tl k v k' hmem with h' | h'
      · exact h.1 h'
      · exact hk h'

theorem keys_mapDelete_sublist {β : Type} (m : List (Nat × β)) (k : Nat) :
    ((mapDelete m k).map Prod.fst).Sublist (m.map Prod.fst) := by
  induction m with
  | nil => simp [mapDelete]
  | cons hd tl ih =>
    obtain ⟨k', v'⟩ := hd
    by_cases hk : k' = k
    · subst hk
      have hdel : mapDelete ((k', v') :: tl) k' = tl := by simp [mapDelete]
      rw [hdel]
      exact List.sublist_cons_self k' (tl.map Prod.fst)
    · simp only [mapDelete, if_neg hk, List.map_cons]
      exact ih.cons₂ k'

theorem nodupKeys_mapDelete {β : Type} (m : List (Nat × β)) (k : Nat)
    (h : (m.map Prod.fst).Nodup) : ((mapDelete m k).map Prod.fst).Nodup :=
  h.sublist (keys_mapDelete_sublist m k)

theorem mapGet_mapDelete_self {β : Type} (m : List (Nat × β)) (k : Nat)
    (h : (m.map Prod.fst).Nodup) : mapGet (mapDelete m k) k = none := by
  induction m with
  | nil => rfl
  | cons hd tl ih =>
    obtain ⟨k', v'⟩ := hd
    simp only [List.map_cons, List.nodup_cons] at h
    by_cases hk : k' = k
    · subst hk
      have hdel : mapDelete ((k', v') :: tl) k' = tl := by simp [mapDelete]
      rw [hdel]
      exact mapGet_eq_none_of_not_mem tl k' h.1
    · simp [mapDelete, mapGet, hk, ih h.2]

theorem eq_nil_of_forall_mapGet_none {β : Type} (m : List (Nat × β))
    (h : ∀ k, mapGet m k = none) : m = [] := by
  cases m with
  | nil => rfl
  | cons hd tl =>
    obtain ⟨k, v⟩ := hd
    have := h k
    simp [mapGet] at this

/-! ## Claim theorems: single-operation functional correctness -/

/-- C2: for every key and amount that passes validation, a successful
`chargePoint(key, amount)` writes `old balance + amount` to the balance
store, appends exactly one CHARGE ledger entry whose timestamp equals the
store-returned `updateMillis` of that write (strictly later than the clock at
submission, so not the caller's submission time), and returns the
store-persisted updated account. -/
theorem charge_commit_persists_and_logs (lm : LockManagerState)
    (st : PointState) (k : Nat) (a : Int) (up : UserPoint)
    (h : (chargePoint lm st k a).result = .ok up) :
    up.point = bal st k + a
    ∧ mapGet (chargePoint lm st k a).state.points k = some up
    ∧ (chargePoint lm st k a).state.histories
        = st.histories ++
          [{ id := st.histories.length + 1, userId := k, amount := a,
             type := .CHARGE, timeMillis := up.updateMillis }]
    ∧ st.now < up.updateMillis := by
  by_cases hcap : a > MAX_CHARGE_PER_TRANSACTION
  · rw [chargePoint_reject_cap lm st k a hcap] at h
    cases h
  · have hcap' : a ≤ MAX_CHARGE_PER_TRANSACTION := not_lt.mp hcap
    by_cases hmax : bal st k + a > MAX_POINT
    · rw [chargePoint_reject_max lm st k a hcap' hmax] at h
      cases h
    · have hmax' : bal st k + a ≤ MAX_POINT := not_lt.mp hmax
      rw [chargePoint_commit lm st k a hcap' hmax'] at h ⊢
      have hup : up = txUserPoint st k (bal st k + a) := by
        cases h; rfl
      subst hup
      refine ⟨rfl, ?_, ?_, ?_⟩
      · exact mapGet_mapSet_self st.points k (txUserPoint st k (bal st k + a))
      · rfl
      · exact Nat.lt_succ_self st.now

/-- C2 witness: charging 500 from a fresh account commits with balance 500,
persists it, and logs one CHARGE entry stamped with the store's timestamp. -/
theorem charge_commit_persists_and_logs_witness :
    (chargePoint emptyLockManager emptyPointState 1 500).result
      = .ok { id := 1, point := 500, updateMillis := 1 }
    ∧ ({ id := 1, point := 500, updateMillis := 1 } : UserPoint).point
        = bal emptyPointState 1 + 500
    ∧ mapGet (chargePoint emptyLockManager emptyPointState 1 500).state.points 1
        = some { id := 1, point := 500, updateMillis := 1 }
    ∧ (chargePoint emptyLockManager emptyPointState 1 500).state.histories
        = emptyPointState.histories ++
          [{ id := emptyPointState.histories.length + 1, userId := 1,
             amount := 500, type := .CHARGE, timeMillis := 1 }]
    ∧ emptyPointState.now
        < ({ id := 1, point := 500, updateMillis := 1 } : UserPoint).updateMillis :=
  ⟨by decide, by
    have h := charge_commit_persists_and_logs emptyLockManager emptyPointState 1 500
      { id := 1, point := 500, updateMillis := 1 } (by decide)
    exact ⟨h.1, h.2.1, h.2.2.1, h.2.2.2⟩⟩

/-- C3: with an amount that passes the use-unit check, `usePoint` fails with
`insufficientBalance` exactly when the current balance is strictly below the
amount, and on that failure the store (balance and ledger alike) is left
completely unchanged. -/
theorem use_insufficient_iff_and_pure (lm : LockManagerState)
    (st : PointState) (k : Nat) (a : Int) (hunit : a % USE_UNIT = 0) :
    ((usePoint lm st k a).result = .error .insufficientBalance ↔ bal st k < a)
    ∧ (bal st k < a → (usePoint lm st k a).state = st) := by
  by_cases hlt : bal st k < a
  · rw [usePoint_reject_insufficient lm st k a hunit hlt]
    exact ⟨⟨fun _ => hlt, fun _ => rfl⟩, fun _ => rfl⟩
  · have hge : a ≤ bal st k := not_lt.mp hlt
    rw [usePoint_commit lm st k a hunit hge]
    exact ⟨⟨fun h => Except.noConfusion h, fun h => absurd h hlt⟩, fun h => absurd h hlt⟩

/-- C3 witness: using 100 from a fresh (zero-balance) account is rejected as
insufficient and leaves the store untouched. -/
theorem use_insufficient_iff_and_pure_witness :
    (100 : Int) % USE_UNIT = 0
    ∧ (((usePoint emptyLockManager emptyPointState 1 100).result
          = .error .insufficientBalance ↔ bal emptyPointState 1 < 100)
      ∧ (bal emptyPointState 1 < 100 →
          (usePoint emptyLockManager emptyPointState 1 100).state = emptyPointState)) :=
  ⟨by decide,
    use_insufficient_iff_and_pure emptyLockManager emptyPointState 1 100 (by decide)⟩

/-- C4 counterexample: with balance 9,500,000 and amount 1,500,000 the sum
exceeds `MAX_POINT`, yet `chargePoint` does not fail with the balance-limit
error — the per-transaction cap check fires first (`maxChargeExceeded`).
So "fails with BalanceLimitExceeded exactly when balance + amount exceeds
MAX_BALANCE" is false as stated. -/
theorem charge_limit_not_exact :
    bal stNearMax 1 + 1500000 > MAX_POINT
    ∧ (chargePoint emptyLockManager stNearMax 1 1500000).result
        = .error .maxChargeExceeded
    ∧ ¬ (chargePoint emptyLockManager stNearMax 1 1500000).result
        = .error .maxPointExceeded := by
  refine ⟨by decide, by decide, by decide⟩

/-- C4 (amended): *given the amount also passes the per-transaction cap
check* (`amount ≤ MAX_CHARGE_PER_TRANSACTION`), `chargePoint` fails with
`maxPointExceeded` exactly when `balance + amount > MAX_POINT = 10,000,000`,
and on that failure the store (balance and ledger) is unchanged. -/
theorem charge_limit_iff_and_pure (lm : LockManagerState) (st : PointState)
    (k : Nat) (a : Int) (hcap : a ≤ MAX_CHARGE_PER_TRANSACTION) :
    ((chargePoint lm st k a).result = .error .maxPointExceeded
        ↔ bal st k + a > MAX_POINT)
    ∧ (bal st k + a > MAX_POINT → (chargePoint lm st k a).state = st) := by
  by_cases hmax : bal st k + a > MAX_POINT
  · rw [chargePoint_reject_max lm st k a hcap hmax]
    exact ⟨⟨fun _ => hmax, fun _ => rfl⟩, fun _ => rfl⟩
  · have hmax' : bal st k + a ≤ MAX_POINT := not_lt.mp hmax
    rw [chargePoint_commit lm st k a hcap hmax']
    exact ⟨⟨fun h => Except.noConfusion h, fun h => absurd h hmax⟩,
      fun h => absurd h hmax⟩

/-- C4 witness: with balance 9,500,000, a charge of 1,000,000 (which passes
the cap check) is rejected with the balance-limit error and mutates
nothing. -/
theorem charge_limit_iff_and_pure_witness :
    (1000000 : Int) ≤ MAX_CHARGE_PER_TRANSACTION
    ∧ (((chargePoint emptyLockManager stNearMax 1 1000000).result
          = .error .maxPointExceeded ↔ bal stNearMax 1 + 1000000 > MAX_POINT)
      ∧ (bal stNearMax 1 + 1000000 > MAX_POINT →
          (chargePoint emptyLockManager stNearMax 1 1000000).state = stNearMax)) :=
  ⟨by decide,
    charge_limit_iff_and_pure emptyLockManager stNearMax 1 1000000 (by decide)⟩

/-- C5 counterexample: (1) the non-positive amount −5, which the claim calls
malformed, is *not* rejected by `chargePoint` — it commits, writes the store
and appends a ledger entry (the positivity check lives in the HTTP DTO
layer, not in the service); (2) the rejection of an over-cap amount happens
*after* the lock admission, not before it — the trace of
`chargePoint(1, 2,000,000)` starts with the `acquire` event and only then
rejects. -/
theorem invalid_amount_precheck_refuted :
    (-5 : Int) ≤ 0
    ∧ (chargePoint emptyLockManager emptyPointState 1 (-5)).result
        = .ok { id := 1, point := -5, updateMillis := 1 }
    ∧ (chargePoint emptyLockManager emptyPointState 1 (-5)).state.histories.length = 1
    ∧ (chargePoint emptyLockManager emptyPointState 1 2000000).trace
        = [.acquire 1, .reject 1 .maxChargeExceeded, .release 1] := by
  refine ⟨by decide, by decide, by decide, by decide⟩

/-- C5 (amended): for every amount exceeding `MAX_CHARGE_PER_TRANSACTION`
for a charge, or not a multiple of `USE_UNIT` for a use, the operation is
rejected *after acquiring the key's lock* but before any balance-store
read, and produces zero ledger entries and zero balance-store writes
regardless of the current balance (the whole trace is
admission–rejection–release, with no read, write or append event, and the
store state is returned unchanged).  Non-positive amounts are not checked
by the service; they are screened by the HTTP DTO layer upstream. -/
theorem invalid_amount_rejected_inside_lock (lm : LockManagerState)
    (st : PointState) (k : Nat) (a : Int) :
    (a > MAX_CHARGE_PER_TRANSACTION →
      (chargePoint lm st k a).result = .error .maxChargeExceeded
      ∧ (chargePoint lm st k a).state = st
      ∧ (chargePoint lm st k a).trace
          = [.acquire k, .reject k .maxChargeExceeded, .release k])
    ∧ (a % USE_UNIT ≠ 0 →
      (usePoint lm st k a).result = .error .invalidUseUnit
      ∧ (usePoint lm st k a).state = st
      ∧ (usePoint lm st k a).trace
          = [.acquire k, .reject k .invalidUseUnit, .release k]) := by
  constructor
  · intro h
    rw [chargePoint_reject_cap lm st k a h]
    exact ⟨rfl, rfl, rfl⟩
  · intro h
    rw [usePoint_reject_unit lm st k a h]
    exact ⟨rfl, rfl, rfl⟩

/-- C5 witness: amount 1,000,050 both exceeds the charge cap and is not a
multiple of the use unit; both rejections fire inside the lock with no
store access. -/
theorem invalid_amount_rejected_inside_lock_witness :
    ((1000050 : Int) > MAX_CHARGE_PER_TRANSACTION
      ∧ (chargePoint emptyLockManager emptyPointState 1 1000050).result
          = .error .maxChargeExceeded
      ∧ (chargePoint emptyLockManager emptyPointState 1 1000050).state = emptyPointState
      ∧ (chargePoint emptyLockManager emptyPointState 1 1000050).trace
          = [.acquire 1, .reject 1 .maxChargeExceeded, .release 1])
    ∧ ((1000050 : Int) % USE_UNIT ≠ 0
      ∧ (usePoint emptyLockManager emptyPointState 1 1000050).result
          = .error .invalidUseUnit
      ∧ (usePoint emptyLockManager emptyPointState 1 1000050).state = emptyPointState
      ∧ (usePoint emptyLockManager emptyPointState 1 1000050).trace
          = [.acquire 1, .reject 1 .invalidUseUnit, .release 1]) :=
  ⟨⟨by decide,
      (invalid_amount_rejected_inside_lock emptyLockManager emptyPointState 1
        1000050).1 (by decide)⟩,
    ⟨by decide,
      (invalid_amount_rejected_inside_lock emptyLockManager emptyPointState 1
        1000050).2 (by decide)⟩⟩

/-- C10: at the service interface, `usePoint(key, 0)` succeeds whenever the
current balance is non-negative: 0 passes the use-unit check and the
sufficient-balance check, so the operation commits — it rewrites the
unchanged balance to the store under a fresh store timestamp and appends a
USE ledger entry with amount 0. -/
theorem use_zero_commits (lm : LockManagerState) (st : PointState) (k : Nat)
    (h : 0 ≤ bal st k) :
    (usePoint lm st k 0).result = .ok (txUserPoint st k (bal st k))
    ∧ (txUserPoint st k (bal st k)).point = bal st k
    ∧ (txUserPoint st k (bal st k)).updateMillis = st.now + 1
    ∧ mapGet (usePoint lm st k 0).state.points k
        = some (txUserPoint st k (bal st k))
    ∧ (usePoint lm st k 0).state.histories
        = st.histories ++ [txEntry st k 0 .USE]
    ∧ (txEntry st k 0 .USE).amount = 0
    ∧ (txEntry st k 0 .USE).type = .USE := by
  have hc := usePoint_commit lm st k 0 (by decide) h
  rw [sub_zero] at hc
  rw [hc]
  refine ⟨rfl, rfl, rfl, ?_, rfl, rfl, rfl⟩
  exact mapGet_mapSet_self st.points k (txUserPoint st k (bal st k))

/-- C10 witness: `usePoint(1, 0)` on a fresh account commits, leaves the
balance at 0 and logs a USE entry of amount 0. -/
theorem use_zero_commits_witness :
    (0 : Int) ≤ bal emptyPointState 1
    ∧ ((usePoint emptyLockManager emptyPointState 1 0).result
          = .ok (txUserPoint emptyPointState 1 (bal emptyPointState 1))
      ∧ (txUserPoint emptyPointState 1 (bal emptyPointState 1)).point
          = bal emptyPointState 1
      ∧ (txUserPoint emptyPointState 1 (bal emptyPointState 1)).updateMillis
          = emptyPointState.now + 1
      ∧ mapGet (usePoint emptyLockManager emptyPointState 1 0).state.points 1
          = some (txUserPoint emptyPointState 1 (bal emptyPointState 1))
      ∧ (usePoint emptyLockManager emptyPointState 1 0).state.histories
          = emptyPointState.histories ++ [txEntry emptyPointState 1 0 .USE]
      ∧ (txEntry emptyPointState 1 0 .USE).amount = 0
      ∧ (txEntry emptyPointState 1 0 .USE).type = .USE) :=
  ⟨by decide, use_zero_commits emptyLockManager emptyPointState 1 (by decide)⟩

/-! ## Effects of a committed operation on balances and ledger views -/

theorem bal_emptyPointState (k : Nat) : bal emptyPointState k = 0 := rfl

theorem bal_txState (st : PointState) (k0 : Nat) (p a : Int)
    (ty : TransactionType) (k : Nat) :
    bal (txState st k0 p a ty) k = if k0 = k then p else bal st k := by
  by_cases h : k0 = k
  · subst h
    simp [bal, selectById, txState, mapGet_mapSet_self, txUserPoint]
  · have hne : k ≠ k0 := fun hh => h hh.symm
    simp [bal, selectById, txState, mapGet_mapSet_ne st.points k0 k _ hne, h]

theorem entriesFor_append_single (hs : List PointHistory) (h : PointHistory)
    (k : Nat) (ty : TransactionType) :
    entriesFor (hs ++ [h]) k ty
      = entriesFor hs k ty ++ (if h.userId = k ∧ h.type = ty then [h] else []) := by
  by_cases hp : h.userId = k ∧ h.type = ty
  · simp [entriesFor, List.filter_append, hp]
  · simp [entriesFor, List.filter_append, hp]

theorem ledgerSum_append_single (hs : List PointHistory) (h : PointHistory)
    (k : Nat) (ty : TransactionType) :
    ledgerSum (hs ++ [h]) k ty
      = ledgerSum hs k ty + (if h.userId = k ∧ h.type = ty then h.amount else 0) := by
  by_cases hp : h.userId = k ∧ h.type = ty
  · simp [ledgerSum, entriesFor_append_single, hp]
  · simp [ledgerSum, entriesFor_append_single, hp]

theorem entriesOf_append_single (hs : List PointHistory) (h : PointHistory)
    (k : Nat) :
    entriesOf (hs ++ [h]) k
      = entriesOf hs k ++ (if h.userId = k then [h] else []) := by
  by_cases hp : h.userId = k
  · simp [entriesOf, List.filter_append, hp]
  · simp [entriesOf, List.filter_append, hp]

theorem txEntry_userId (st : PointState) (k : Nat) (a : Int)
    (ty : TransactionType) : (txEntry st k a ty).userId = k := rfl

theorem txEntry_type (st : PointState) (k : Nat) (a : Int)
    (ty : TransactionType) : (txEntry st k a ty).type = ty := rfl

theorem txEntry_amount (st : PointState) (k : Nat) (a : Int)
    (ty : TransactionType) : (txEntry st k a ty).amount = a := rfl

theorem txState_histories (st : PointState) (k : Nat) (p a : Int)
    (ty : TransactionType) :
    (txState st k p a ty).histories = st.histories ++ [txEntry st k a ty] := rfl

theorem chargePoint_state_of_cap (lm : LockManagerState) (st : PointState)
    (k : Nat) (a : Int) (h : a > MAX_CHARGE_PER_TRANSACTION) :
    (chargePoint lm st k a).state = st := by
  rw [chargePoint_reject_cap lm st k a h]

theorem chargePoint_state_of_max (lm : LockManagerState) (st : PointState)
    (k : Nat) (a : Int) (hcap : a ≤ MAX_CHARGE_PER_TRANSACTION)
    (hmax : bal st k + a > MAX_POINT) :
    (chargePoint lm st k a).state = st := by
  rw [chargePoint_reject_max lm st k a hcap hmax]

theorem chargePoint_state_of_commit (lm : LockManagerState) (st : PointState)
    (k : Nat) (a : Int) (hcap : a ≤ MAX_CHARGE_PER_TRANSACTION)
    (hmax : bal st k + a ≤ MAX_POINT) :
    (chargePoint lm st k a).state = txState st k (bal st k + a) a .CHARGE := by
  rw [chargePoint_commit lm st k a hcap hmax]

theorem chargePoint_result_of_commit (lm : LockManagerState) (st : PointState)
    (k : Nat) (a : Int) (hcap : a ≤ MAX_CHARGE_PER_TRANSACTION)
    (hmax : bal st k + a ≤ MAX_POINT) :
    (chargePoint lm st k a).result = .ok (txUserPoint st k (bal st k + a)) := by
  rw [chargePoint_commit lm st k a hcap hmax]

theorem usePoint_state_of_unit (lm : LockManagerState) (st : PointState)
    (k : Nat) (a : Int) (h : a % USE_UNIT ≠ 0) :
    (usePoint lm st k a).state = st := by
  rw [usePoint_reject_unit lm st k a h]

theorem usePoint_state_of_insufficient (lm : LockManagerState) (st : PointState)
    (k : Nat) (a : Int) (hunit : a % USE_UNIT = 0) (hlt : bal st k < a) :
    (usePoint lm st k a).state = st := by
  rw [usePoint_reject_insufficient lm st k a hunit hlt]

theorem usePoint_state_of_commit (lm : LockManagerState) (st : PointState)
    (k : Nat) (a : Int) (hunit : a % USE_UNIT = 0) (hge : a ≤ bal st k) :
    (usePoint lm st k a).state = txState st k (bal st k - a) a .USE := by
  rw [usePoint_commit lm st k a hunit hge]

theorem applyOp_charge (st : PointState) (lm : LockManagerState) (k : Nat)
    (a : Int) :
    applyOp (st, lm) (.charge k a)
      = ((chargePoint lm st k a).state, (chargePoint lm st k a).lockState) := rfl

theorem applyOp_use (st : PointState) (lm : LockManagerState) (k : Nat)
    (a : Int) :
    applyOp (st, lm) (.use k a)
      = ((usePoint lm st k a).state, (usePoint lm st k a).lockState) := rfl

theorem runOps_nil (p : PointState × LockManagerState) : runOps p [] = p := rfl

theorem runOps_cons (p : PointState × LockManagerState) (op : Op)
    (ops : List Op) : runOps p (op :: ops) = runOps (applyOp p op) ops := rfl

/-- The store state after one operation is one of the branch states: every
`chargePoint`/`usePoint` either leaves the store unchanged (a rejection) or
commits to the corresponding `txState`. -/
theorem applyOp_state_cases (st : PointState) (lm : LockManagerState) (op : Op) :
    (applyOp (st, lm) op).1 = st
    ∨ (∃ k a, op = .charge k a ∧ a ≤ MAX_CHARGE_PER_TRANSACTION
        ∧ bal st k + a ≤ MAX_POINT
        ∧ (applyOp (st, lm) op).1 = txState st k (bal st k + a) a .CHARGE)
    ∨ (∃ k a, op = .use k a ∧ a % USE_UNIT = 0 ∧ a ≤ bal st k
        ∧ (applyOp (st, lm) op).1 = txState st k (bal st k - a) a .USE) := by
  cases op with
  | charge k a =>
    rw [applyOp_charge]
    by_cases hcap : a > MAX_CHARGE_PER_TRANSACTION
    · exact .inl (chargePoint_state_of_cap lm st k a hcap)
    · have hcap' := not_lt.mp hcap
      by_cases hmax : bal st k + a > MAX_POINT
      · exact .inl (chargePoint_state_of_max lm st k a hcap' hmax)
      · have hmax' := not_lt.mp hmax
        exact .inr (.inl ⟨k, a, rfl, hcap', hmax',
          chargePoint_state_of_commit lm st k a hcap' hmax'⟩)
  | use k a =>
    rw [applyOp_use]
    by_cases hunit : a % USE_UNIT ≠ 0
    · exact .inl (usePoint_state_of_unit lm st k a hunit)
    · have hunit' : a % USE_UNIT = 0 := not_not.mp hunit
      by_cases hlt : bal st k < a
      · exact .inl (usePoint_state_of_insufficient lm st k a hunit' hlt)
      · have hge := not_lt.mp hlt
        exact .inr (.inr ⟨k, a, rfl, hunit', hge,
          usePoint_state_of_commit lm st k a hunit' hge⟩)

/-! ## Preservation lemmas over operation sequences -/

theorem bal_bounds_preserved (st : PointState) (lm : LockManagerState) (op : Op)
    (hpos : 0 < op.amount)
    (hinv : ∀ k, 0 ≤ bal st k ∧ bal st k ≤ MAX_POINT) :
    ∀ k, 0 ≤ bal (applyOp (st, lm) op).1 k
      ∧ bal (applyOp (st, lm) op).1 k ≤ MAX_POINT := by
  intro k
  rcases applyOp_state_cases st lm op with h | ⟨k', a, hop, _, hmax, h⟩
    | ⟨k', a, hop, _, hge, h⟩
  · rw [h]; exact hinv k
  · rw [h, bal_txState]
    subst hop
    simp only [Op.amount] at hpos
    by_cases hk : k' = k
    · rw [if_pos hk]
      have h0 := (hinv k').1
      exact ⟨by linarith, hmax⟩
    · rw [if_neg hk]; exact hinv k
  · rw [h, bal_txState]
    subst hop
    simp only [Op.amount] at hpos
    by_cases hk : k' = k
    · rw [if_pos hk]
      have h1 := (hinv k').2
      exact ⟨by linarith, by linarith⟩
    · rw [if_neg hk]; exact hinv k

theorem bal_bounds_runOps (ops : List Op) :
    ∀ (st : PointState) (lm : LockManagerState),
    (∀ op ∈ ops, 0 < op.amount) →
    (∀ k, 0 ≤ bal st k ∧ bal st k ≤ MAX_POINT) →
    ∀ k, 0 ≤ bal (runOps (st, lm) ops).1 k
      ∧ bal (runOps (st, lm) ops).1 k ≤ MAX_POINT := by
  induction ops with
  | nil => intro st lm _ hinv k; rw [runOps_nil]; exact hinv k
  | cons op rest ih =>
    intro st lm hpos hinv k
    rw [runOps_cons]
    exact ih (applyOp (st, lm) op).1 (applyOp (st, lm) op).2
      (fun o ho => hpos o (List.mem_cons_of_mem _ ho))
      (bal_bounds_preserved st lm op (hpos op (List.mem_cons_self _ _)) hinv) k

theorem ledger_consistency_preserved (st : PointState) (lm : LockManagerState)
    (op : Op)
    (hinv : ∀ k, bal st k
      = ledgerSum st.histories k .CHARGE - ledgerSum st.histories k .USE) :
    ∀ k, bal (applyOp (st, lm) op).1 k
      = ledgerSum (applyOp (st, lm) op).1.histories k .CHARGE
        - ledgerSum (applyOp (st, lm) op).1.histories k .USE := by
  intro k
  rcases applyOp_state_cases st lm op with h | ⟨k', a, _, _, hmax, h⟩
    | ⟨k', a, _, _, hge, h⟩
  · rw [h]; exact hinv k
  · rw [h, bal_txState, txState_histories, ledgerSum_append_single,
      ledgerSum_append_single, txEntry_userId, txEntry_type, txEntry_amount]
    by_cases hk : k' = k
    · subst hk
      rw [if_pos rfl, if_pos ⟨rfl, rfl⟩,
        if_neg (fun hc => TransactionType.noConfusion hc.2), add_zero, hinv k']
      ring
    · rw [if_neg hk, if_neg (fun hc => hk hc.1), if_neg (fun hc => hk hc.1),
        add_zero, add_zero]
      exact hinv k
  · rw [h, bal_txState, txState_histories, ledgerSum_append_single,
      ledgerSum_append_single, txEntry_userId, txEntry_type, txEntry_amount]
    by_cases hk : k' = k
    · subst hk
      rw [if_pos rfl, if_neg (fun hc => TransactionType.noConfusion hc.2),
        if_pos ⟨rfl, rfl⟩, add_zero, hinv k']
      ring
    · rw [if_neg hk, if_neg (fun hc => hk hc.1), if_neg (fun hc => hk hc.1),
        add_zero, add_zero]
      exact hinv k

theorem ledger_consistency_runOps (ops : List Op) :
    ∀ (st : PointState) (lm : LockManagerState),
    (∀ k, bal st k
      = ledgerSum st.histories k .CHARGE - ledgerSum st.histories k .USE) →
    ∀ k, bal (runOps (st, lm) ops).1 k
      = ledgerSum (runOps (st, lm) ops).1.histories k .CHARGE
        - ledgerSum (runOps (st, lm) ops).1.histories k .USE := by
  induction ops with
  | nil => intro st lm hinv k; rw [runOps_nil]; exact hinv k
  | cons op rest ih =>
    intro st lm hinv k
    rw [runOps_cons]
    exact ih (applyOp (st, lm) op).1 (applyOp (st, lm) op).2
      (ledger_consistency_preserved st lm op hinv) k

/-- C6 counterexample: at the service interface the amount is *not* required
to be positive (the DTO layer checks that, outside the service), and
`chargePoint(1, −5)` from a fresh account commits and leaves the stored
balance at −5, outside [0, MAX_POINT].  So the invariant fails "for all
integer amounts accepted by the service interface". -/
theorem balance_invariant_refuted :
    (chargePoint emptyLockManager emptyPointState 1 (-5)).result
      = .ok { id := 1, point := -5, updateMillis := 1 }
    ∧ bal (chargePoint emptyLockManager emptyPointState 1 (-5)).state 1 < 0 := by
  refine ⟨by decide, by decide⟩

/-- C6 (amended): for *positive* amounts — the only ones the service is
actually given, since the HTTP DTO layer rejects the rest — the balance is
invariant: every key starts at 0, and after any sequence of `chargePoint`
and `usePoint` calls the stored balance of every key stays within
[0, MAX_POINT]. -/
theorem balance_invariant_for_positive (ops : List Op)
    (hpos : ∀ op ∈ ops, 0 < op.amount) (k : Nat) :
    bal emptyPointState k = 0
    ∧ 0 ≤ bal (runOps (emptyPointState, emptyLockManager) ops).1 k
    ∧ bal (runOps (emptyPointState, emptyLockManager) ops).1 k ≤ MAX_POINT := by
  have hinv : ∀ k, 0 ≤ bal emptyPointState k ∧ bal emptyPointState k ≤ MAX_POINT := by
    intro k
    rw [bal_emptyPointState]
    exact ⟨le_refl 0, by norm_num [MAX_POINT]⟩
  have h := bal_bounds_runOps ops emptyPointState emptyLockManager hpos hinv k
  exact ⟨rfl, h.1, h.2⟩

/-- C6 witness: a charge of 500 then a use of 100 (both positive) keep key
1's balance inside the bounds. -/
theorem balance_invariant_for_positive_witness :
    (∀ op ∈ ([.charge 1 500, .use 1 100] : List Op), 0 < op.amount)
    ∧ (bal emptyPointState 1 = 0
      ∧ 0 ≤ bal (runOps (emptyPointState, emptyLockManager)
            [.charge 1 500, .use 1 100]).1 1
      ∧ bal (runOps (emptyPointState, emptyLockManager)
            [.charge 1 500, .use 1 100]).1 1 ≤ MAX_POINT) :=
  ⟨by decide, balance_invariant_for_positive [.charge 1 500, .use 1 100] (by decide) 1⟩

/-- C7: after any sequence of operations applied through the service from
the initial store, every key's stored balance equals the sum of the amounts
of its CHARGE ledger entries minus the sum of the amounts of its USE ledger
entries — rejected operations contribute nothing, committed ones keep log
and balance in lock step. -/
theorem balance_equals_ledger (ops : List Op) (k : Nat) :
    bal (runOps (emptyPointState, emptyLockManager) ops).1 k
      = ledgerSum (runOps (emptyPointState, emptyLockManager) ops).1.histories k .CHARGE
        - ledgerSum (runOps (emptyPointState, emptyLockManager) ops).1.histories k .USE := by
  refine ledger_consistency_runOps ops emptyPointState emptyLockManager ?_ k
  intro k'
  rw [bal_emptyPointState]
  simp [ledgerSum, entriesFor, emptyPointState]

/-- `N` serialized charges of `A` on one key, each within the cap and each
keeping the running balance under `MAX_POINT`, add `N·A` to the balance and
`N` entries to that key's ledger. -/
theorem runCharges_bal_count (N : Nat) :
    ∀ (lm : LockManagerState) (st : PointState) (k : Nat) (A : Int),
    A ≤ MAX_CHARGE_PER_TRANSACTION →
    (∀ i : Nat, 1 ≤ i → i ≤ N → bal st k + i * A ≤ MAX_POINT) →
    bal (runOps (st, lm) (List.replicate N (.charge k A))).1 k = bal st k + N * A
    ∧ (entriesOf (runOps (st, lm) (List.replicate N (.charge k A))).1.histories k).length
        = (entriesOf st.histories k).length + N := by
  induction N with
  | zero =>
    intro lm st k A _ _
    rw [List.replicate_zero, runOps_nil]
    constructor
    · push_cast; ring
    · rfl
  | succ n ih =>
    intro lm st k A hcap hbound
    rw [List.replicate_succ, runOps_cons, applyOp_charge]
    have h1 : bal st k + A ≤ MAX_POINT := by
      have hb := hbound 1 (le_refl 1) (by omega)
      push_cast at hb
      linarith
    rw [chargePoint_state_of_commit lm st k A hcap h1]
    have hb1 : bal (txState st k (bal st k + A) A .CHARGE) k = bal st k + A := by
      rw [bal_txState, if_pos rfl]
    have hh1 : (entriesOf (txState st k (bal st k + A) A .CHARGE).histories k).length
        = (entriesOf st.histories k).length + 1 := by
      rw [txState_histories, entriesOf_append_single, txEntry_userId, if_pos rfl,
        List.length_append, List.length_singleton]
    have hbound1 : ∀ i : Nat, 1 ≤ i → i ≤ n →
        bal (txState st k (bal st k + A) A .CHARGE) k + i * A ≤ MAX_POINT := by
      intro i hi hin
      rw [hb1]
      have hb := hbound (i + 1) (by omega) (by omega)
      push_cast at hb
      linarith
    have ihh := ih (chargePoint lm st k A).lockState
      (txState st k (bal st k + A) A .CHARGE) k A hcap hbound1
    constructor
    · rw [ihh.1, hb1]
      push_cast
      ring
    · rw [ihh.2, hh1]
      omega

/-- C1 counterexample: with N = 1 and A = 2,000,000 we have
N·A ≤ MAX_BALANCE, yet the final balance is 0 (not N·A) and no ledger entry
exists — the charge is rejected by the per-transaction cap, which the claim
does not account for. -/
theorem concurrent_charges_claim_refuted :
    ((1 : Nat) : Int) * 2000000 ≤ MAX_POINT
    ∧ ¬ bal (runOps (emptyPointState, emptyLockManager)
          (List.replicate 1 (.charge 1 2000000))).1 1 = ((1 : Nat) : Int) * 2000000
    ∧ (entriesOf (runOps (emptyPointState, emptyLockManager)
          (List.replicate 1 (.charge 1 2000000))).1.histories 1).length = 0 := by
  refine ⟨by decide, by decide, by decide⟩

/-- C1 (amended): if additionally each charge passes the per-transaction cap
(`A ≤ MAX_CHARGE_PER_TRANSACTION`), then N logically-concurrent charges of
`A` on one key — serialized back-to-back by `LockManager.acquire`'s promise
chain, so no update is lost — leave the balance at exactly `N·A` and exactly
`N` ledger entries for that key. -/
theorem concurrent_charges_no_lost_updates (N : Nat) (k : Nat) (A : Int)
    (hcap : A ≤ MAX_CHARGE_PER_TRANSACTION)
    (htotal : (N : Int) * A ≤ MAX_POINT) :
    bal (runOps (emptyPointState, emptyLockManager)
        (List.replicate N (.charge k A))).1 k = (N : Int) * A
    ∧ (entriesOf (runOps (emptyPointState, emptyLockManager)
        (List.replicate N (.charge k A))).1.histories k).length = N := by
  have hbound : ∀ i : Nat, 1 ≤ i → i ≤ N →
      bal emptyPointState k + i * A ≤ MAX_POINT := by
    intro i _ hN
    rw [bal_emptyPointState, zero_add]
    rcases le_or_lt 0 A with hA | hA
    · have hle : (i : Int) * A ≤ (N : Int) * A := by
        apply mul_le_mul_of_nonneg_right _ hA
        exact_mod_cast hN
      linarith
    · have hle : (i : Int) * A ≤ (i : Int) * 0 :=
        mul_le_mul_of_nonneg_left (le_of_lt hA) (Nat.cast_nonneg i)
      rw [mul_zero] at hle
      have : (0 : Int) ≤ MAX_POINT := by norm_num [MAX_POINT]
      linarith
  have h := runCharges_bal_count N emptyLockManager emptyPointState k A hcap hbound
  constructor
  · rw [h.1, bal_emptyPointState, zero_add]
  · rw [h.2]
    have h0 : (entriesOf emptyPointState.histories k).length = 0 := rfl
    omega

/-- C1 witness: three charges of 400 on key 1 (400 ≤ cap, 3·400 ≤ MAX) end
with balance 1200 and three ledger entries. -/
theorem concurrent_charges_no_lost_updates_witness :
    (400 : Int) ≤ MAX_CHARGE_PER_TRANSACTION
    ∧ ((3 : Nat) : Int) * 400 ≤ MAX_POINT
    ∧ (bal (runOps (emptyPointState, emptyLockManager)
          (List.replicate 3 (.charge 1 400))).1 1 = ((3 : Nat) : Int) * 400
      ∧ (entriesOf (runOps (emptyPointState, emptyLockManager)
          (List.replicate 3 (.charge 1 400))).1.histories 1).length = 3) :=
  ⟨by decide, by decide,
    concurrent_charges_no_lost_updates 3 1 400 (by decide) (by decide)⟩

/-! ## The lock registry drains (C8) -/

theorem stepLock_nodup (m : List (Nat × Nat)) (e : LockEvent)
    (h : (m.map Prod.fst).Nodup) : ((stepLock m e).map Prod.fst).Nodup := by
  cases e with
  | enter k id => exact nodupKeys_mapSet m k id h
  | leave k id =>
    simp only [stepLock]
    by_cases hc : mapGet m k = some id
    · rw [if_pos hc]; exact nodupKeys_mapDelete m k h
    · rw [if_neg hc]; exact h

theorem allEntersServed_tail (e : LockEvent) (es : List LockEvent)
    (h : allEntersServed (e :: es) = true) : allEntersServed es = true := by
  rw [allEntersServed, List.all_eq_true] at h ⊢
  intro i hi
  have hi' : i + 1 ∈ List.range (e :: es).length := by
    rw [List.mem_range] at hi ⊢
    simp only [List.length_cons]
    omega
  have h2 := h (i + 1) hi'
  simp only [entersAfter, leavesAfter] at h2 ⊢
  simp only [List.get?_cons_succ, List.drop_succ_cons] at h2
  exact h2

theorem allEntersServed_head (k id : Nat) (es : List LockEvent)
    (h : allEntersServed (.enter k id :: es) = true) :
    es.any (isEnterFor k) = true ∨ (LockEvent.leave k id) ∈ es := by
  rw [allEntersServed, List.all_eq_true] at h
  have h0 := h 0 (by simp [List.mem_range])
  simp only [List.get?_cons_zero, entersAfter, leavesAfter, List.drop_succ_cons,
    List.drop_zero] at h0
  rw [Bool.or_eq_true] at h0
  rcases h0 with h0 | h0
  · exact .inl h0
  · right
    rcases List.any_eq_true.mp h0 with ⟨x, hx, hxe⟩
    have hxx : x = LockEvent.leave k id := by simpa using hxe
    exact hxx ▸ hx

theorem stepLock_fold_served (es : List LockEvent) :
    ∀ m : List (Nat × Nat),
    (m.map Prod.fst).Nodup →
    allEntersServed es = true →
    (∀ k id, mapGet m k = some id →
      es.any (isEnterFor k) = true ∨ LockEvent.leave k id ∈ es) →
    ∀ k, mapGet (es.foldl stepLock m) k = none := by
  induction es with
  | nil =>
    intro m _ _ hserved k
    cases hm : mapGet m k with
    | none => exact hm
    | some id =>
      rcases hserved k id hm with h | h
      · simp at h
      · simp at h
  | cons e rest ih =>
    intro m hnd hall hserved k
    rw [List.foldl_cons]
    refine ih (stepLock m e) (stepLock_nodup m e hnd)
      (allEntersServed_tail e rest hall) ?_ k
    intro k0 id0 hget0
    cases e with
    | enter k' id' =>
      by_cases hk : k' = k0
      · subst hk
        have hid : id0 = id' := by
          rw [show stepLock m (.enter k' id') = mapSet m k' id' from rfl,
            mapGet_mapSet_self] at hget0
          exact (Option.some.inj hget0).symm
        subst hid
        exact allEntersServed_head k' id0 rest hall
      · have hget' : mapGet m k0 = some id0 := by
          rw [show stepLock m (.enter k' id') = mapSet m k' id' from rfl,
            mapGet_mapSet_ne m k' k0 id' (fun hh => hk hh.symm)] at hget0
          exact hget0
        rcases hserved k0 id0 hget' with h | h
        · left
          rcases List.any_eq_true.mp h with ⟨x, hx, hxe⟩
          rcases List.mem_cons.mp hx with hx0 | hx0
          · exfalso
            subst hx0
            simp [isEnterFor] at hxe
            exact hk hxe
          · exact List.any_eq_true.mpr ⟨x, hx0, hxe⟩
        · right
          rcases List.mem_cons.mp h with h0 | h0
          · cases h0
          · exact h0
    | leave k' id' =>
      have hget' : mapGet m k0 = some id0 := by
        by_cases hc : mapGet m k' = some id'
        · rw [show stepLock m (.leave k' id')
              = if mapGet m k' = some id' then mapDelete m k' else m from rfl,
            if_pos hc] at hget0
          by_cases hk : k' = k0
          · subst hk
            rw [mapGet_mapDelete_self m k' hnd] at hget0
            cases hget0
          · rw [mapGet_mapDelete_ne m k' k0 (fun hh => hk hh.symm)] at hget0
            exact hget0
        · rw [show stepLock m (.leave k' id')
              = if mapGet m k' = some id' then mapDelete m k' else m from rfl,
            if_neg hc] at hget0
          exact hget0
      rcases hserved k0 id0 hget' with h | h
      · left
        rcases List.any_eq_true.mp h with ⟨x, hx, hxe⟩
        rcases List.mem_cons.mp hx with hx0 | hx0
        · exfalso
          subst hx0
          simp [isEnterFor] at hxe
        · exact List.any_eq_true.mpr ⟨x, hx0, hxe⟩
      · right
        rcases List.mem_cons.mp h with h0 | h0
        · exfalso
          injection h0 with h1 h2
          subst h1
          subst h2
          have hfired : mapGet (stepLock m (.leave k0 id0)) k0 = none := by
            rw [show stepLock m (.leave k0 id0)
                = if mapGet m k0 = some id0 then mapDelete m k0 else m from rfl,
              if_pos hget']
            exact mapGet_mapDelete_self m k0 hnd
          rw [hfired] at hget0
          cases hget0
        · exact h0

/-- C8: if every admission in a burst of `acquire` calls is eventually
completed (its `finally` ran) or superseded and completed, the lock registry
ends empty — `cleanupLockIfNeeded` removes a key's entry exactly when the
entry still belongs to the completing operation, so after all operations
finish no entry survives: `hasActiveLock` is false for every key and the
`Map` holds 0 entries. -/
theorem lock_registry_drains (es : List LockEvent)
    (h : allEntersServed es = true) :
    runLockEvents es = []
    ∧ ∀ k, hasActiveLockReg (runLockEvents es) k = false := by
  have hnone : ∀ k, mapGet (es.foldl stepLock []) k = none := by
    refine stepLock_fold_served es [] (by simp) h ?_
    intro k id hget
    cases hget
  have hempty : es.foldl stepLock ([] : List (Nat × Nat)) = [] :=
    eq_nil_of_forall_mapGet_none _ hnone
  refine ⟨hempty, ?_⟩
  intro k
  rw [runLockEvents, hempty]
  rfl

/-- C8 witness: an interleaved burst on keys 1 and 2 (including a completion
that is superseded, so its cleanup is a no-op) leaves the registry empty. -/
theorem lock_registry_drains_witness :
    allEntersServed [LockEvent.enter 1 0, .enter 1 1, .leave 1 0, .enter 2 2,
      .leave 1 1, .leave 2 2] = true
    ∧ runLockEvents [LockEvent.enter 1 0, .enter 1 1, .leave 1 0, .enter 2 2,
        .leave 1 1, .leave 2 2] = []
    ∧ hasActiveLockReg (runLockEvents [LockEvent.enter 1 0, .enter 1 1,
        .leave 1 0, .enter 2 2, .leave 1 1, .leave 2 2]) 1 = false :=
  ⟨by decide,
    (lock_registry_drains [LockEvent.enter 1 0, .enter 1 1, .leave 1 0,
      .enter 2 2, .leave 1 1, .leave 2 2] (by decide)).1,
    (lock_registry_drains [LockEvent.enter 1 0, .enter 1 1, .leave 1 0,
      .enter 2 2, .leave 1 1, .leave 2 2] (by decide)).2 1⟩

/-! ## Failure propagation through `acquire` (C9) -/

theorem acquire_result (lm : LockManagerState) (k : Nat)
    (op : PointState → Except PointError UserPoint × PointState × List Event)
    (st : PointState) :
    (LockManager.acquire lm k op st).result = (op st).1 := by
  simp only [LockManager.acquire]

theorem acquire_state (lm : LockManagerState) (k : Nat)
    (op : PointState → Except PointError UserPoint × PointState × List Event)
    (st : PointState) :
    (LockManager.acquire lm k op st).state = (op st).2.1 := by
  simp only [LockManager.acquire]

theorem acquire_locks (lm : LockManagerState) (k : Nat)
    (op : PointState → Except PointError UserPoint × PointState × List Event)
    (st : PointState) :
    (LockManager.acquire lm k op st).lockState.locks
      = stepLock (stepLock lm.locks (.enter k lm.nextId)) (.leave k lm.nextId) := by
  simp only [LockManager.acquire]

/-- `acquire`'s `finally` (release + `cleanupLockIfNeeded`) always removes
the operation's own registry entry once the whole per-key chain it started
is done: afterwards the key holds no active lock. -/
theorem acquire_releases (lm : LockManagerState) (k : Nat)
    (op : PointState → Except PointError UserPoint × PointState × List Event)
    (st : PointState) (hnd : (lm.locks.map Prod.fst).Nodup) :
    hasActiveLockReg (LockManager.acquire lm k op st).lockState.locks k = false := by
  rw [hasActiveLockReg, acquire_locks]
  have h1 : stepLock lm.locks (.enter k lm.nextId) = mapSet lm.locks k lm.nextId := rfl
  have h2 : mapGet (mapSet lm.locks k lm.nextId) k = some lm.nextId :=
    mapGet_mapSet_self lm.locks k lm.nextId
  rw [h1, show stepLock (mapSet lm.locks k lm.nextId) (.leave k lm.nextId)
      = if mapGet (mapSet lm.locks k lm.nextId) k = some lm.nextId
        then mapDelete (mapSet lm.locks k lm.nextId) k
        else mapSet lm.locks k lm.nextId from rfl,
    if_pos h2,
    mapGet_mapDelete_self (mapSet lm.locks k lm.nextId) k
      (nodupKeys_mapSet lm.locks k lm.nextId hnd)]
  rfl

theorem runAcquireQueue_cons_results (lm : LockManagerState) (st : PointState)
    (k : Nat)
    (op : PointState → Except PointError UserPoint × PointState × List Event)
    (rest : List (PointState → Except PointError UserPoint × PointState × List Event)) :
    (runAcquireQueue lm st k (op :: rest)).1
      = (LockManager.acquire lm k op st).result
        :: (runAcquireQueue (LockManager.acquire lm k op st).lockState
            (LockManager.acquire lm k op st).state k rest).1 := by
  simp only [runAcquireQueue]

theorem runAcquireQueue_length (k : Nat)
    (ops : List (PointState → Except PointError UserPoint × PointState × List Event)) :
    ∀ (lm : LockManagerState) (st : PointState),
    (runAcquireQueue lm st k ops).1.length = ops.length := by
  induction ops with
  | nil => intro lm st; rfl
  | cons op rest ih =>
    intro lm st
    rw [runAcquireQueue_cons_results, List.length_cons, ih, List.length_cons]

/-- C9: if the operation body passed to `LockManager.acquire(key, fn)`
throws, `acquire` returns that same failure to its caller; the `finally`
block still releases and cleans up the lock (no active lock remains for the
key), and a FIFO queue of later operations for the same key still runs to
completion — the queue's results start with the propagated failure, followed
by exactly the results of running the remaining operations, one result per
queued operation. -/
theorem acquire_failure_propagates_and_frees (lm : LockManagerState)
    (st : PointState) (k : Nat) (e : PointError)
    (op : PointState → Except PointError UserPoint × PointState × List Event)
    (rest : List (PointState → Except PointError UserPoint × PointState × List Event))
    (hnd : (lm.locks.map Prod.fst).Nodup)
    (hfail : (op st).1 = .error e) :
    (LockManager.acquire lm k op st).result = .error e
    ∧ hasActiveLockReg (LockManager.acquire lm k op st).lockState.locks k = false
    ∧ (runAcquireQueue lm st k (op :: rest)).1
        = .error e :: (runAcquireQueue (LockManager.acquire lm k op st).lockState
            (LockManager.acquire lm k op st).state k rest).1
    ∧ (runAcquireQueue lm st k (op :: rest)).1.length = rest.length + 1 := by
  refine ⟨?_, acquire_releases lm k op st hnd, ?_, ?_⟩
  · rw [acquire_result]
    exact hfail
  · rw [runAcquireQueue_cons_results, acquire_result, hfail]
  · rw [runAcquireQueue_length, List.length_cons]

/-- C9 witness: a use of 100 against balance 0 fails with insufficient
funds, the lock is freed, and a queued charge of 500 still runs (two
results: the failure, then the charge's success). -/
theorem acquire_failure_propagates_and_frees_witness :
    ((emptyLockManager.locks.map Prod.fst).Nodup
      ∧ (useBody 1 100 emptyPointState).1 = .error .insufficientBalance)
    ∧ ((LockManager.acquire emptyLockManager 1 (useBody 1 100) emptyPointState).result
        = .error .insufficientBalance
      ∧ hasActiveLockReg (LockManager.acquire emptyLockManager 1 (useBody 1 100)
          emptyPointState).lockState.locks 1 = false
      ∧ (runAcquireQueue emptyLockManager emptyPointState 1
          [useBody 1 100, chargeBody 1 500]).1
        = .error .insufficientBalance
          :: (runAcquireQueue (LockManager.acquire emptyLockManager 1 (useBody 1 100)
                emptyPointState).lockState
              (LockManager.acquire emptyLockManager 1 (useBody 1 100)
                emptyPointState).state 1 [chargeBody 1 500]).1
      ∧ (runAcquireQueue emptyLockManager emptyPointState 1
          [useBody 1 100, chargeBody 1 500]).1.length = 2) :=
  ⟨⟨by decide, by decide⟩,
    acquire_failure_propagates_and_frees emptyLockManager emptyPointState 1
      .insufficientBalance (useBody 1 100) [chargeBody 1 500]
      (by decide) (by decide)⟩
